import Mathlib

/-!
Shallow embedding of the tnyr.me backend core (src/backend/main.py).

Python strings are modelled as lists of Unicode code points (`PyStr`),
byte strings as lists of naturals below 256.  The external cryptographic
primitives called by the code (Argon2id via `argon2.low_level.hash_secret_raw`,
scrypt via `hashlib.scrypt`, and the AES-256 block permutation from the
`cryptography` package) are modelled as abstract functions bundled in a
context `Ctx`; CBC mode, PKCS#7 padding, UTF-8 encoding/decoding, hex
encoding/decoding and all control flow of the endpoints are embedded
concretely from the source.  Randomness (`os.urandom`, `secrets.choice`)
is passed in as explicit tape arguments.
-/

/-- A Python `str`: a sequence of Unicode code points. -/
abbrev PyStr := List Nat

/-- A Python `bytes` value: a sequence of byte values. -/
abbrev Bytes := List Nat

/-- Code points of a Lean string literal, used to embed Python string literals. -/
def strLit (s : String) : PyStr := s.data.map Char.toNat

/-! ## UTF-8 codec (Python `str.encode()` / `bytes.decode()`) -/

/-- UTF-8 encoding of a single code point; `none` on surrogates and
out-of-range values (Python raises `UnicodeEncodeError` there). -/
def utf8EncodeCp (c : Nat) : Option Bytes :=
  if c < 0x80 then some [c]
  else if c < 0x800 then some [0xC0 + c / 64, 0x80 + c % 64]
  else if 0xD800 ≤ c ∧ c ≤ 0xDFFF then none
  else if c < 0x10000 then
    some [0xE0 + c / 4096, 0x80 + c / 64 % 64, 0x80 + c % 64]
  else if c < 0x110000 then
    some [0xF0 + c / 262144, 0x80 + c / 4096 % 64, 0x80 + c / 64 % 64, 0x80 + c % 64]
  else none

/-- Python `str.encode()`: UTF-8 encoding of a whole string. -/
def utf8Encode : PyStr → Option Bytes
  | [] => some []
  | c :: cs => do
    let b ← utf8EncodeCp c
    let bs ← utf8Encode cs
    pure (b ++ bs)

/-- Whether a byte is a UTF-8 continuation byte (`0x80..0xBF`). -/
def isCont (b : Nat) : Bool := 0x80 ≤ b && b ≤ 0xBF

/-- Decode one UTF-8 sequence: given its first byte `b` and the following
bytes `bs`, return the code point and the bytes after the sequence; `none` on
a malformed sequence (continuation bytes, overlong forms, surrogates and
values above U+10FFFF are rejected, as CPython does). -/
def decodeMulti (b : Nat) (bs : Bytes) : Option (Nat × Bytes) :=
  if b < 0x80 then some (b, bs)
  else if b < 0xC2 then none
  else if b < 0xE0 then
    bs.head?.bind fun b2 =>
      if isCont b2 then some ((b - 0xC0) * 64 + (b2 - 0x80), bs.tail) else none
  else if b < 0xF0 then
    bs.head?.bind fun b2 =>
      bs.tail.head?.bind fun b3 =>
        if isCont b2 && isCont b3
            && (b ≠ 0xE0 || 0xA0 ≤ b2) && (b ≠ 0xED || b2 ≤ 0x9F) then
          some ((b - 0xE0) * 4096 + (b2 - 0x80) * 64 + (b3 - 0x80), bs.tail.tail)
        else none
  else if b < 0xF5 then
    bs.head?.bind fun b2 =>
      bs.tail.head?.bind fun b3 =>
        bs.tail.tail.head?.bind fun b4 =>
          if isCont b2 && isCont b3 && isCont b4
              && (b ≠ 0xF0 || 0x90 ≤ b2) && (b ≠ 0xF4 || b2 ≤ 0x8F) then
            some ((b - 0xF0) * 262144 + (b2 - 0x80) * 4096 + (b3 - 0x80) * 64 + (b4 - 0x80),
              bs.tail.tail.tail)
          else none
  else none

theorem length_tail_le (l : Bytes) : l.tail.length ≤ l.length := by
  cases l <;> simp

theorem decodeMulti_rest_le (b : Nat) (bs : Bytes) (c : Nat) (rest : Bytes)
    (h : decodeMulti b bs = some (c, rest)) : rest.length ≤ bs.length := by
  have t1 := length_tail_le bs
  have t2 := length_tail_le bs.tail
  have t3 := length_tail_le bs.tail.tail
  unfold decodeMulti at h
  split_ifs at h
  · simp only [Option.some.injEq, Prod.mk.injEq] at h
    obtain ⟨-, rfl⟩ := h
    exact le_rfl
  · simp only [Option.bind_eq_some] at h
    obtain ⟨b2, -, h⟩ := h
    split_ifs at h
    simp only [Option.some.injEq, Prod.mk.injEq] at h
    obtain ⟨-, rfl⟩ := h
    exact t1
  · simp only [Option.bind_eq_some] at h
    obtain ⟨b2, -, h⟩ := h
    obtain ⟨b3, -, h⟩ := h
    split_ifs at h
    simp only [Option.some.injEq, Prod.mk.injEq] at h
    obtain ⟨-, rfl⟩ := h
    omega
  · simp only [Option.bind_eq_some] at h
    obtain ⟨b2, -, h⟩ := h
    obtain ⟨b3, -, h⟩ := h
    obtain ⟨b4, -, h⟩ := h
    split_ifs at h
    simp only [Option.some.injEq, Prod.mk.injEq] at h
    obtain ⟨-, rfl⟩ := h
    omega

/-- Fuel-driven UTF-8 decoding loop; the fuel only forces structural recursion
and is irrelevant once it is at least the length of the input. -/
def utf8DecodeF : Nat → Bytes → Option PyStr
  | _, [] => some []
  | 0, _ :: _ => none
  | fuel + 1, b :: bs =>
    match decodeMulti b bs with
    | none => none
    | some (c, rest) => (c :: ·) <$> utf8DecodeF fuel rest

/-- Python `bytes.decode()`: strict UTF-8 decoding of a whole byte string,
`none` on malformed input (Python raises `UnicodeDecodeError` there). -/
def utf8Decode (d : Bytes) : Option PyStr := utf8DecodeF d.length d

/-! ## Hex codec (`bytes.hex()` / `bytes.fromhex()`) -/

/-- Code point of the lowercase hex digit for a value below 16. -/
def hexDigitChar (n : Nat) : Nat := if n < 10 then 48 + n else 87 + n

/-- Python `bytes.hex()`: lowercase hex string of a byte string. -/
def hexEncode : Bytes → PyStr
  | [] => []
  | b :: t => hexDigitChar (b / 16) :: hexDigitChar (b % 16) :: hexEncode t

/-- Value of one hex digit code point, `none` for a non-hex-digit character. -/
def hexVal (c : Nat) : Option Nat :=
  if 48 ≤ c ∧ c ≤ 57 then some (c - 48)
  else if 97 ≤ c ∧ c ≤ 102 then some (c - 87)
  else if 65 ≤ c ∧ c ≤ 70 then some (c - 55)
  else none

/-- Whether a code point is ASCII whitespace (skipped by `bytes.fromhex`). -/
def isAsciiWs (c : Nat) : Bool := c = 32 || c = 9 || c = 10 || c = 11 || c = 12 || c = 13

/-- Python `bytes.fromhex()`: pairs of hex digits, ASCII whitespace allowed
between pairs; `none` on malformed input (Python raises `ValueError`). -/
def fromhex : PyStr → Option Bytes
  | [] => some []
  | c :: cs =>
    if isAsciiWs c then fromhex cs
    else
      match cs with
      | [] => none
      | c2 :: rest => do
        let h ← hexVal c
        let l ← hexVal c2
        let t ← fromhex rest
        pure ((h * 16 + l) :: t)

/-! ## PKCS#7 padding (`cryptography.hazmat.primitives.padding.PKCS7(128)`) -/

/-- PKCS#7 padding to 16-byte blocks, as applied by `padder.update/finalize`. -/
def pkcs7Pad (d : Bytes) : Bytes :=
  d ++ List.replicate (16 - d.length % 16) (16 - d.length % 16)

/-- PKCS#7 unpadding, as applied by `unpadder.update/finalize`; `none` when the
data is empty, not block-aligned, or its padding bytes are inconsistent
(the library raises `ValueError` there). -/
def pkcs7Unpad (d : Bytes) : Option Bytes :=
  if d.length % 16 ≠ 0 ∨ d.length = 0 then none
  else
    let n := d.getLastD 0
    if 1 ≤ n ∧ n ≤ 16 ∧ (d.drop (d.length - n)).all (· = n) then
      some (d.take (d.length - n))
    else none

/-! ## CBC mode over an abstract block permutation -/

/-- Pointwise XOR of two byte strings of equal length. -/
def xorBytes (a b : Bytes) : Bytes := List.zipWith (· ^^^ ·) a b

/-- Fuel-driven 16-byte block splitter; the fuel only forces structural
recursion and is irrelevant once it is at least the length of the input. -/
def toBlocksF : Nat → Bytes → List Bytes
  | 0, _ => []
  | fuel + 1, d => if d = [] then [] else d.take 16 :: toBlocksF fuel (d.drop 16)

/-- Split a byte string into consecutive 16-byte blocks. -/
def toBlocks (d : Bytes) : List Bytes := toBlocksF d.length d

/-- CBC encryption of a block sequence: each plaintext block is XORed with the
previous ciphertext block (initially the IV) and passed through the block
permutation. -/
def cbcEncBlocks (encB : Bytes → Bytes) (prev : Bytes) : List Bytes → List Bytes
  | [] => []
  | b :: bs =>
    let c := encB (xorBytes b prev)
    c :: cbcEncBlocks encB c bs

/-- CBC decryption of a block sequence. -/
def cbcDecBlocks (decB : Bytes → Bytes) (prev : Bytes) : List Bytes → List Bytes
  | [] => []
  | c :: cs => xorBytes (decB c) prev :: cbcDecBlocks decB c cs

/-- CBC-encrypt a (padded) byte string under an IV. -/
def cbcEncrypt (encB : Bytes → Bytes) (iv d : Bytes) : Bytes :=
  (cbcEncBlocks encB iv (toBlocks d)).flatten

/-- CBC-decrypt a byte string under an IV. -/
def cbcDecrypt (decB : Bytes → Bytes) (iv d : Bytes) : Bytes :=
  (cbcDecBlocks decB iv (toBlocks d)).flatten

/-! ## Abstract context for the external primitives and config -/

/-- External cryptographic primitives and configuration used by
src/backend/main.py.  `argon2` stands for `hash_secret_raw` with the
(config-supplied) Argon2id parameters already fixed; `scrypt` for
`hashlib.scrypt(password, salt, n, r, p, dklen)`; `aesEnc`/`aesDec` for the
AES-256 block permutation of the `cryptography` package, keyed by the first
argument.  `SALT1`/`SALT2` are the two 16-byte server secrets loaded from
config. -/
structure Ctx where
  argon2 : Bytes → Bytes → Bytes
  scrypt : Bytes → Bytes → Nat → Nat → Nat → Nat → Bytes
  aesEnc : Bytes → Bytes → Bytes
  aesDec : Bytes → Bytes → Bytes
  SALT1 : Bytes
  SALT2 : Bytes

/-- The AES block-permutation contract assumed of the external library:
the keyed inverse permutation undoes the keyed permutation on 16-byte
blocks, which keep their length. -/
def GoodCipher (ctx : Ctx) : Prop :=
  (∀ k b, ctx.aesDec k (ctx.aesEnc k b) = b) ∧
  (∀ k b, b.length = 16 → (ctx.aesEnc k b).length = 16)

/-- Embeds `derive_key(id_bytes, salt)` from src/backend/main.py: Argon2id with
the config parameters. -/
def derive_key (ctx : Ctx) (id_bytes salt : Bytes) : Bytes := ctx.argon2 id_bytes salt

/-! ## The cipher wrappers of src/backend/main.py -/

/-- Error raised by `encrypt_url`: the explicit key-length `ValueError`, or the
`UnicodeEncodeError` from `plaintext.encode()`. -/
inductive EncryptErr where
  | invalidKeyLength (got : Nat)
  | unicodeEncodeError
deriving DecidableEq, Repr

/-- Error raised by `decrypt_url`: the explicit key-length `ValueError` comes
first; the remaining constructors are the distinct exceptions of the external
libraries (IV size check at `Cipher` construction, non-block-aligned data at
`decryptor.finalize`, bad padding at `unpadder.finalize`, and
`UnicodeDecodeError` from `.decode()`). -/
inductive DecryptErr where
  | invalidKeyLength (got : Nat)
  | invalidIVSize
  | notMultipleOfBlock
  | invalidPadding
  | unicodeDecodeError
deriving DecidableEq, Repr

/-- Embeds `encrypt_url(key, plaintext)` (AES-256-CBC with PKCS#7): validates
the key length, draws `iv` from the random tape (`os.urandom(16)`), UTF-8
encodes the plaintext, pads and CBC-encrypts it, returning `(iv, ciphertext)`. -/
def encrypt_url (ctx : Ctx) (ivTape : Bytes) (key : Bytes) (plaintext : PyStr) :
    Except EncryptErr (Bytes × Bytes) :=
  if key.length ≠ 32 then .error (.invalidKeyLength key.length)
  else
    match utf8Encode plaintext with
    | none => .error .unicodeEncodeError
    | some pt => .ok (ivTape, cbcEncrypt (ctx.aesEnc key) ivTape (pkcs7Pad pt))

/-- Embeds `decrypt_url(key, iv, ciphertext)`: validates the key length, then
CBC-decrypts, unpads and UTF-8 decodes, surfacing each library failure as the
exception the library raises. -/
def decrypt_url (ctx : Ctx) (key iv ciphertext : Bytes) : Except DecryptErr PyStr :=
  if key.length ≠ 32 then .error (.invalidKeyLength key.length)
  else if iv.length ≠ 16 then .error .invalidIVSize
  else if ciphertext.length % 16 ≠ 0 then .error .notMultipleOfBlock
  else
    match pkcs7Unpad (cbcDecrypt (ctx.aesDec key) iv ciphertext) with
    | none => .error .invalidPadding
    | some pt =>
      match utf8Decode pt with
      | none => .error .unicodeDecodeError
      | some s => .ok s

/-- The fixed public lookup salt of `hash_id_for_lookup_client`. -/
def LOOKUP_SALT : Bytes :=
  [0x74, 0x6e, 0x79, 0x72, 0x2e, 0x6d, 0x65, 0x5f, 0x6c, 0x6f, 0x6f, 0x6b, 0x75, 0x70, 0x5f, 0x73]

/-- Embeds `hash_id_for_lookup_client(id_str)`: hex of
`scrypt(id_str.encode(), LOOKUP_SALT, n=2**17, r=8, p=1, dklen=32)`. -/
def hash_id_for_lookup_client (ctx : Ctx) (id_str : PyStr) : Option PyStr :=
  (utf8Encode id_str).map fun idb => hexEncode (ctx.scrypt idb LOOKUP_SALT (2 ^ 17) 8 1 32)

/-- Embeds `derive_encryption_key_client(id_str, salt)`:
`scrypt(id_str.encode(), salt, n=2**17, r=8, p=1, dklen=32)`. -/
def derive_encryption_key_client (ctx : Ctx) (id_str : PyStr) (salt : Bytes) : Option Bytes :=
  (utf8Encode id_str).map fun idb => ctx.scrypt idb salt (2 ^ 17) 8 1 32

/-- Embeds `encrypt_url_client(key, plaintext)`, whose body is identical to
`encrypt_url`. -/
def encrypt_url_client (ctx : Ctx) (ivTape : Bytes) (key : Bytes) (plaintext : PyStr) :
    Except EncryptErr (Bytes × Bytes) :=
  if key.length ≠ 32 then .error (.invalidKeyLength key.length)
  else
    match utf8Encode plaintext with
    | none => .error .unicodeEncodeError
    | some pt => .ok (ivTape, cbcEncrypt (ctx.aesEnc key) ivTape (pkcs7Pad pt))

/-- The fixed marker string `ABUSE_WARNING_MARKER = '__ABUSE_WARNING__'`. -/
def ABUSE_WARNING_MARKER : PyStr := strLit "__ABUSE_WARNING__"

/-! ## The SQLite tables as association lists (row order = insertion order) -/

/-- A row of the `urls` table (server scheme), minus its lookup hash. -/
structure ServerRec where
  iv : Bytes
  encrypted_url : Bytes
deriving DecidableEq, Repr

/-- A row of the `client_side_urls` table, minus its lookup hash. -/
structure ClientRec where
  encryption_salt : Bytes
  iv : Bytes
  encrypted_url : Bytes
deriving DecidableEq, Repr

/-- The `urls` table. -/
abbrev ServerStore := List (PyStr × ServerRec)

/-- The `client_side_urls` table. -/
abbrev ClientStore := List (PyStr × ClientRec)

/-- First row whose lookup hash equals `k`
(`SELECT ... WHERE lookup_hash = ?` + `fetchone`). -/
def lookupStore {ρ : Type} (s : List (PyStr × ρ)) (k : PyStr) : Option ρ :=
  match s with
  | [] => none
  | (k', v) :: t => if k' = k then some v else lookupStore t k

/-- `UPDATE ... SET ... WHERE lookup_hash = ?`: every row with hash `k` gets the
new material; no row is added or removed and no hash changes. -/
def updateStore {ρ : Type} (s : List (PyStr × ρ)) (k : PyStr) (v : ρ) : List (PyStr × ρ) :=
  match s with
  | [] => []
  | (k0, v0) :: rest => (if k0 = k then (k, v) else (k0, v0)) :: updateStore rest k v

/-! ## Endpoint: `delete_url` (the takedown path / scheme reconciler) -/

/-- Response of the `delete_url` endpoint.  `crash` stands for an uncaught
Python exception (only reachable on unencodable identifiers or if an external
primitive breaks its length contract). -/
inductive DelResp where
  | disabled403
  | missing400
  | invalidToken403
  | success200
  | notFound404
  | crash
deriving DecidableEq, Repr

/-- Embeds the `delete_url` endpoint.  `cfgToken` is `config['deletion_token']`
(empty when unset), `freshSalt` models the `os.urandom(16)` draw for the
client-scheme branch and `ivS`/`ivC` the `os.urandom(16)` draws inside
`encrypt_url`/`encrypt_url_client`.  The request body is `data`: `none` for a
missing/non-object JSON body, otherwise the optional `id` and `deletion_token`
fields.  Returns the response and the two tables after the call. -/
def delete_url (ctx : Ctx) (cfgToken : PyStr) (freshSalt ivS ivC : Bytes)
    (sStore : ServerStore) (cStore : ClientStore)
    (data : Option (Option PyStr × Option PyStr)) :
    DelResp × ServerStore × ClientStore :=
  if cfgToken = [] then (.disabled403, sStore, cStore)
  else
    match data with
    | none => (.missing400, sStore, cStore)
    | some (oid, otok) =>
      match oid, otok with
      | some link_id, some tok =>
        if tok ≠ cfgToken then (.invalidToken403, sStore, cStore)
        else
          match utf8Encode link_id with
          | none => (.crash, sStore, cStore)
          | some id_bytes =>
            let lookup_hash_old := hexEncode (derive_key ctx id_bytes ctx.SALT1)
            if (lookupStore sStore lookup_hash_old).isSome then
              let encryption_key := derive_key ctx id_bytes ctx.SALT2
              match encrypt_url ctx ivS encryption_key ABUSE_WARNING_MARKER with
              | .error _ => (.crash, sStore, cStore)
              | .ok (iv, encrypted_warning) =>
                (.success200,
                 updateStore sStore lookup_hash_old ⟨iv, encrypted_warning⟩, cStore)
            else
              let lookup_hash_new := hexEncode (ctx.scrypt id_bytes LOOKUP_SALT (2 ^ 17) 8 1 32)
              if (lookupStore cStore lookup_hash_new).isSome then
                let encryption_key := ctx.scrypt id_bytes freshSalt (2 ^ 17) 8 1 32
                match encrypt_url_client ctx ivC encryption_key ABUSE_WARNING_MARKER with
                | .error _ => (.crash, sStore, cStore)
                | .ok (iv, encrypted_warning) =>
                  (.success200, sStore,
                   updateStore cStore lookup_hash_new ⟨freshSalt, iv, encrypted_warning⟩)
              else (.notFound404, sStore, cStore)
      | _, _ => (.missing400, sStore, cStore)

/-! ## Endpoint: `shorten_url_server` (server-scheme create) -/

/-- Whether codepoint string `s` starts with `p` (Python `str.startswith`). -/
def startsWith : PyStr → PyStr → Bool
  | [], _ => true
  | _ :: _, [] => false
  | a :: ps, b :: ss => a = b && startsWith ps ss

/-- Embeds the URL normalization of `shorten_url_server` (lines 242-243):
prepend `http://` unless the URL starts with `https://`, `http://` or
`magnet:`. -/
def normalizeUrl (url : PyStr) : PyStr :=
  if startsWith (strLit "https://") url || startsWith (strLit "http://") url
      || startsWith (strLit "magnet:") url then url
  else strLit "http://" ++ url

/-- Outcome of the `for _ in range(100)` allocation loop of
`shorten_url_server`.  `found n id lh` means attempt number `n` (1-based)
drew identifier `id`, whose lookup hash `lh` was absent from the table;
`exhausted n` means all `n` attempts hit existing hashes and the `else`
branch of the `for` runs; `encodeError` stands for an uncaught
`UnicodeEncodeError` from `id.encode()`. -/
inductive AllocResult where
  | found (attempts : Nat) (id : PyStr) (lookup_hash : PyStr)
  | exhausted (attempts : Nat)
  | encodeError
deriving DecidableEq, Repr

/-- The allocation loop: `ids` is the tape of `generate_id()` draws, `i` the
number of attempts already made, `fuel` the remaining attempts. -/
def allocLoop (ctx : Ctx) (ids : Nat → PyStr) (store : ServerStore) :
    Nat → Nat → AllocResult
  | i, 0 => .exhausted i
  | i, fuel + 1 =>
    match utf8Encode (ids i) with
    | none => .encodeError
    | some id_bytes =>
      let lookup_hash := hexEncode (derive_key ctx id_bytes ctx.SALT1)
      if (lookupStore store lookup_hash).isSome then allocLoop ctx ids store (i + 1) fuel
      else .found (i + 1) (ids i) lookup_hash

/-- Response of the `shorten_url_server` endpoint. -/
inductive SResp where
  | missing400
  | exhausted500
  | created201 (id : PyStr)
  | crash
deriving DecidableEq, Repr

/-- Embeds the `shorten_url_server` endpoint: normalize the URL, run the
allocation loop with retry limit 100, then derive the encryption key with
`SALT2`, encrypt, and insert the new row.  `ids` is the `generate_id()` tape,
`ivTape` the `os.urandom(16)` draw of `encrypt_url`, and `data` the optional
`url` field of the request body (`none` = missing). -/
def shorten_url_server (ctx : Ctx) (ids : Nat → PyStr) (ivTape : Bytes)
    (store : ServerStore) (data : Option PyStr) : SResp × ServerStore :=
  match data with
  | none => (.missing400, store)
  | some url0 =>
    let url := normalizeUrl url0
    match allocLoop ctx ids store 0 100 with
    | .exhausted _ => (.exhausted500, store)
    | .encodeError => (.crash, store)
    | .found _ id lookup_hash =>
      match utf8Encode id with
      | none => (.crash, store)
      | some id_bytes =>
        let encryption_key := derive_key ctx id_bytes ctx.SALT2
        match encrypt_url ctx ivTape encryption_key url with
        | .error _ => (.crash, store)
        | .ok (iv, encrypted_url) =>
          (.created201 id, store ++ [(lookup_hash, ⟨iv, encrypted_url⟩)])

/-! ## Endpoint: `shorten_url_client` (client-scheme create) -/

/-- Request body of `shorten_url_client`: the four fields, each possibly
missing.  (`none` at the outer level = missing/non-object JSON body.) -/
structure ClientReq where
  LOOKUP_HASH : Option PyStr
  ENCRYTION_SALT : Option PyStr
  IV : Option PyStr
  ENCRYPTED_URL : Option PyStr
deriving DecidableEq, Repr

/-- Response of the `shorten_url_client` endpoint. -/
inductive CResp where
  | missing400
  | invalidHex400
  | conflict409
  | created201
deriving DecidableEq, Repr

/-- Embeds the `shorten_url_client` endpoint: reject when a field is missing;
hex-decode the salt, IV and encrypted URL (the lookup hash is used as the
string it arrives as); reject with 409 when the lookup hash already has a
row; otherwise insert. -/
def shorten_url_client (cStore : ClientStore) (data : Option ClientReq) :
    CResp × ClientStore :=
  match data with
  | none => (.missing400, cStore)
  | some req =>
    match req.LOOKUP_HASH, req.ENCRYTION_SALT, req.IV, req.ENCRYPTED_URL with
    | some lookup_hash, some saltHex, some ivHex, some urlHex =>
      match fromhex saltHex, fromhex ivHex, fromhex urlHex with
      | some encryption_salt, some iv, some encrypted_url =>
        if (lookupStore cStore lookup_hash).isSome then (.conflict409, cStore)
        else (.created201, cStore ++ [(lookup_hash, ⟨encryption_salt, iv, encrypted_url⟩)])
      | _, _, _ => (.invalidHex400, cStore)
    | _, _, _, _ => (.missing400, cStore)

/-! ## Endpoint: `redirect_url` (server-scheme resolve) -/

/-- Response of the `redirect_url` endpoint.  `abuseWarning200` is the fixed
static abuse-warning HTML page returned with status 200. -/
inductive RResp where
  | notFound404
  | decryptionFailed500
  | abuseWarning200
  | redirect302 (url : PyStr)
  | crash
deriving DecidableEq, Repr

/-- Embeds the `redirect_url` endpoint: derive the lookup hash with `SALT1`,
fetch the row, derive the decryption key with `SALT2`, decrypt (any exception
becomes the one "Decryption failed" 500 response), then branch on the abuse
marker. -/
def redirect_url (ctx : Ctx) (store : ServerStore) (id : PyStr) : RResp :=
  match utf8Encode id with
  | none => .crash
  | some id_bytes =>
    let lookup_hash := hexEncode (derive_key ctx id_bytes ctx.SALT1)
    match lookupStore store lookup_hash with
    | none => .notFound404
    | some row =>
      let decryption_key := derive_key ctx id_bytes ctx.SALT2
      match decrypt_url ctx decryption_key row.iv row.encrypted_url with
      | .error _ => .decryptionFailed500
      | .ok url =>
        if url = ABUSE_WARNING_MARKER then .abuseWarning200
        else .redirect302 url

/-! ## Supporting lemmas: XOR, block splitting, padding, CBC -/

theorem length_xorBytes (a b : Bytes) : (xorBytes a b).length = min a.length b.length := by
  simp [xorBytes]

theorem xorBytes_cancel : ∀ a b : Bytes, a.length = b.length →
    xorBytes (xorBytes a b) b = a
  | [], [], _ => rfl
  | x :: xs, y :: ys, h => by
    simp only [xorBytes, List.zipWith_cons_cons, List.cons.injEq]
    exact ⟨Nat.xor_cancel_right y x, xorBytes_cancel xs ys (by simpa using h)⟩

theorem toBlocksF_congr : ∀ f g : Nat, ∀ d : Bytes, d.length ≤ f → d.length ≤ g →
    toBlocksF f d = toBlocksF g d
  | 0, 0, _, _, _ => rfl
  | 0, g + 1, d, hf, _ => by
    have hd : d = [] := List.eq_nil_of_length_eq_zero (Nat.le_zero.mp hf)
    subst hd
    simp [toBlocksF]
  | f + 1, 0, d, _, hg => by
    have hd : d = [] := List.eq_nil_of_length_eq_zero (Nat.le_zero.mp hg)
    subst hd
    simp [toBlocksF]
  | f + 1, g + 1, d, hf, hg => by
    by_cases hd : d = []
    · subst hd; simp [toBlocksF]
    · have hpos : d.length ≠ 0 := fun hl => hd (List.eq_nil_of_length_eq_zero hl)
      simp only [toBlocksF, if_neg hd]
      have hdrop : (d.drop 16).length = d.length - 16 := List.length_drop 16 d
      rw [toBlocksF_congr f g (d.drop 16) (by omega) (by omega)]

theorem toBlocks_nil : toBlocks [] = [] := rfl

theorem toBlocks_cons (d : Bytes) (h : d ≠ []) :
    toBlocks d = d.take 16 :: toBlocks (d.drop 16) := by
  have hpos : d.length ≠ 0 := fun hl => h (List.eq_nil_of_length_eq_zero hl)
  obtain ⟨n, hn⟩ : ∃ n, d.length = n + 1 := ⟨d.length - 1, by omega⟩
  unfold toBlocks
  rw [hn]
  simp only [toBlocksF, if_neg h]
  have hdrop : (d.drop 16).length = d.length - 16 := List.length_drop 16 d
  rw [toBlocksF_congr n (d.drop 16).length (d.drop 16) (by omega) le_rfl]

theorem flatten_toBlocks (d : Bytes) : (toBlocks d).flatten = d := by
  suffices H : ∀ n : Nat, ∀ d : Bytes, d.length = n → (toBlocks d).flatten = d from
    H d.length d rfl
  intro n
  induction n using Nat.strong_induction_on with
  | _ n ih =>
    intro d hn
    by_cases hd : d = []
    · subst hd; simp [toBlocks_nil]
    · have hpos : d.length ≠ 0 := fun hl => hd (List.eq_nil_of_length_eq_zero hl)
      rw [toBlocks_cons d hd]
      have hdrop : (d.drop 16).length = d.length - 16 := List.length_drop 16 d
      have := ih (d.drop 16).length (by omega) (d.drop 16) rfl
      simp only [List.flatten_cons, this]
      exact List.take_append_drop 16 d

theorem mem_toBlocks_length (d : Bytes) (hd : d.length % 16 = 0) :
    ∀ b ∈ toBlocks d, b.length = 16 := by
  suffices H : ∀ n : Nat, ∀ d : Bytes, d.length = n → d.length % 16 = 0 →
      ∀ b ∈ toBlocks d, b.length = 16 from H d.length d rfl hd
  intro n
  induction n using Nat.strong_induction_on with
  | _ n ih =>
    intro d hn hmod
    by_cases hde : d = []
    · subst hde; simp [toBlocks_nil]
    · have hpos : d.length ≠ 0 := fun hl => hde (List.eq_nil_of_length_eq_zero hl)
      rw [toBlocks_cons d hde]
      have hdrop : (d.drop 16).length = d.length - 16 := List.length_drop 16 d
      intro b hb
      rcases List.mem_cons.mp hb with rfl | hb
      · simp only [List.length_take]; omega
      · exact ih (d.drop 16).length (by omega) (d.drop 16) rfl (by omega) b hb

theorem toBlocks_flatten : ∀ bs : List Bytes, (∀ b ∈ bs, b.length = 16) →
    toBlocks bs.flatten = bs
  | [], _ => by simp [toBlocks_nil]
  | c :: cs, h => by
    have hc : c.length = 16 := h c (by simp)
    have hcne : c ++ cs.flatten ≠ [] := by
      intro he
      have := congrArg List.length he
      simp [hc] at this
    rw [List.flatten_cons, toBlocks_cons _ hcne]
    have ht : (c ++ cs.flatten).take 16 = c := by
      have := List.take_left c cs.flatten
      rwa [hc] at this
    have hd : (c ++ cs.flatten).drop 16 = cs.flatten := by
      have := List.drop_left c cs.flatten
      rwa [hc] at this
    rw [ht, hd, toBlocks_flatten cs (fun b hb => h b (by simp [hb]))]

theorem length_pkcs7Pad_mod (d : Bytes) : (pkcs7Pad d).length % 16 = 0 := by
  simp only [pkcs7Pad, List.length_append, List.length_replicate]
  omega

theorem length_pkcs7Pad_pos (d : Bytes) : (pkcs7Pad d).length ≠ 0 := by
  simp only [pkcs7Pad, List.length_append, List.length_replicate]
  omega

theorem pkcs7Unpad_pkcs7Pad (d : Bytes) : pkcs7Unpad (pkcs7Pad d) = some d := by
  have hmod := length_pkcs7Pad_mod d
  have hpos := length_pkcs7Pad_pos d
  set n := 16 - d.length % 16 with hn
  have hn1 : 1 ≤ n := by omega
  have hn16 : n ≤ 16 := by omega
  have hlast : (pkcs7Pad d).getLastD 0 = n := by
    have : pkcs7Pad d = (d ++ List.replicate (n - 1) n) ++ [n] := by
      simp only [pkcs7Pad, ← hn, List.append_assoc]
      congr 1
      rw [← List.replicate_succ' (n - 1) n]
      congr 1
      omega
    rw [this]
    simp
  have hlen : (pkcs7Pad d).length = d.length + n := by
    simp [pkcs7Pad, ← hn]
  have hdrop : (pkcs7Pad d).drop ((pkcs7Pad d).length - n) = List.replicate n n := by
    rw [hlen]
    simp only [pkcs7Pad, ← hn, Nat.add_sub_cancel]
    have := List.drop_left d (List.replicate n n)
    exact this
  have htake : (pkcs7Pad d).take ((pkcs7Pad d).length - n) = d := by
    rw [hlen]
    simp only [pkcs7Pad, ← hn, Nat.add_sub_cancel]
    exact List.take_left d (List.replicate n n)
  rw [pkcs7Unpad]
  rw [if_neg (by omega)]
  simp only [hlast, hdrop, htake]
  rw [if_pos]
  refine ⟨hn1, hn16, ?_⟩
  simp [List.all_eq_true, List.mem_replicate]

theorem cbcEncBlocks_lengths (encB : Bytes → Bytes)
    (hlen : ∀ b, b.length = 16 → (encB b).length = 16) :
    ∀ (bs : List Bytes) (prev : Bytes), prev.length = 16 → (∀ b ∈ bs, b.length = 16) →
      ∀ c ∈ cbcEncBlocks encB prev bs, c.length = 16
  | [], _, _, _ => by simp [cbcEncBlocks]
  | b :: bs, prev, hprev, hbs => by
    intro c hc
    have hb : b.length = 16 := hbs b (by simp)
    have hxor : (xorBytes b prev).length = 16 := by
      rw [length_xorBytes, hb, hprev]; simp
    have hcb : (encB (xorBytes b prev)).length = 16 := hlen _ hxor
    simp only [cbcEncBlocks] at hc
    rcases List.mem_cons.mp hc with rfl | hc
    · exact hcb
    · exact cbcEncBlocks_lengths encB hlen bs _ hcb (fun x hx => hbs x (by simp [hx])) c hc

theorem cbcDecBlocks_cbcEncBlocks (encB decB : Bytes → Bytes)
    (hinv : ∀ b, decB (encB b) = b)
    (hlen : ∀ b, b.length = 16 → (encB b).length = 16) :
    ∀ (bs : List Bytes) (prev : Bytes), prev.length = 16 → (∀ b ∈ bs, b.length = 16) →
      cbcDecBlocks decB prev (cbcEncBlocks encB prev bs) = bs
  | [], _, _, _ => rfl
  | b :: bs, prev, hprev, hbs => by
    have hb : b.length = 16 := hbs b (by simp)
    have hxor : (xorBytes b prev).length = 16 := by
      rw [length_xorBytes, hb, hprev]; simp
    have hcb : (encB (xorBytes b prev)).length = 16 := hlen _ hxor
    simp only [cbcEncBlocks, cbcDecBlocks, hinv, List.cons.injEq]
    exact ⟨xorBytes_cancel b prev (by rw [hb, hprev]),
      cbcDecBlocks_cbcEncBlocks encB decB hinv hlen bs _ hcb
        (fun x hx => hbs x (by simp [hx]))⟩

theorem length_cbcEncrypt_mod (encB : Bytes → Bytes)
    (hlen : ∀ b, b.length = 16 → (encB b).length = 16)
    (iv d : Bytes) (hiv : iv.length = 16) (hd : d.length % 16 = 0) :
    (cbcEncrypt encB iv d).length % 16 = 0 := by
  have hblocks := mem_toBlocks_length d hd
  have hall := cbcEncBlocks_lengths encB hlen (toBlocks d) iv hiv hblocks
  unfold cbcEncrypt
  generalize hcs : cbcEncBlocks encB iv (toBlocks d) = cs at hall
  clear hcs
  induction cs with
  | nil => simp
  | cons c cs ih =>
    simp only [List.flatten_cons, List.length_append]
    have h1 : c.length = 16 := hall c (by simp)
    have h2 : cs.flatten.length % 16 = 0 := ih (fun x hx => hall x (by simp [hx]))
    omega

theorem cbcDecrypt_cbcEncrypt (encB decB : Bytes → Bytes)
    (hinv : ∀ b, decB (encB b) = b)
    (hlen : ∀ b, b.length = 16 → (encB b).length = 16)
    (iv d : Bytes) (hiv : iv.length = 16) (hd : d.length % 16 = 0) :
    cbcDecrypt decB iv (cbcEncrypt encB iv d) = d := by
  have hblocks := mem_toBlocks_length d hd
  unfold cbcEncrypt cbcDecrypt
  rw [toBlocks_flatten _ (cbcEncBlocks_lengths encB hlen (toBlocks d) iv hiv hblocks)]
  rw [cbcDecBlocks_cbcEncBlocks encB decB hinv hlen (toBlocks d) iv hiv hblocks]
  exact flatten_toBlocks d

/-! ## Supporting lemmas: UTF-8 round trip -/


/-! ## Supporting lemmas: UTF-8 round trip -/

theorem utf8EncodeCp_ne_nil (c : Nat) (eb : Bytes) (h : utf8EncodeCp c = some eb) :
    ∃ b t, eb = b :: t := by
  unfold utf8EncodeCp at h
  split_ifs at h <;> exact ⟨_, _, (Option.some.injEq _ _ ▸ h.symm)⟩

theorem decodeMulti_encodeCp (c b : Nat) (t bs : Bytes)
    (h : utf8EncodeCp c = some (b :: t)) : decodeMulti b (t ++ bs) = some (c, bs) := by
  unfold utf8EncodeCp at h
  split_ifs at h with h1 h2 h3 h4 h5
  · -- one byte
    simp only [Option.some.injEq, List.cons.injEq] at h
    obtain ⟨rfl, rfl⟩ := h
    unfold decodeMulti
    rw [if_pos h1]
    rfl
  · -- two bytes
    simp only [Option.some.injEq, List.cons.injEq] at h
    obtain ⟨rfl, rfl, rfl⟩ := h
    unfold decodeMulti
    rw [if_neg (by omega), if_neg (by omega), if_pos (by omega)]
    simp only [List.cons_append, List.nil_append, List.head?_cons, List.tail_cons,
      Option.some_bind]
    rw [if_pos (by simp only [isCont, Bool.and_eq_true, decide_eq_true_eq]; omega)]
    simp only [Option.some.injEq, Prod.mk.injEq]
    exact ⟨by omega, trivial⟩
  · -- three bytes
    simp only [not_and, not_le] at h3
    simp only [Option.some.injEq, List.cons.injEq] at h
    obtain ⟨rfl, rfl, rfl, rfl⟩ := h
    unfold decodeMulti
    rw [if_neg (by omega), if_neg (by omega), if_neg (by omega), if_pos (by omega)]
    simp only [List.cons_append, List.nil_append, List.head?_cons, List.tail_cons,
      Option.some_bind]
    rw [if_pos (by
      simp only [isCont, Bool.and_eq_true, Bool.or_eq_true, decide_eq_true_eq]
      refine ⟨⟨⟨⟨by omega, by omega⟩, ⟨by omega, by omega⟩⟩, ?_⟩, ?_⟩
      · by_cases he : 0xE0 + c / 4096 = 0xE0
        · exact Or.inr (by omega)
        · exact Or.inl he
      · by_cases he : 0xE0 + c / 4096 = 0xED
        · refine Or.inr (by omega)
        · exact Or.inl he)]
    simp only [Option.some.injEq, Prod.mk.injEq]
    exact ⟨by omega, trivial⟩
  · -- four bytes
    simp only [not_and, not_le] at h3
    simp only [Option.some.injEq, List.cons.injEq] at h
    obtain ⟨rfl, rfl, rfl, rfl, rfl⟩ := h
    unfold decodeMulti
    rw [if_neg (by omega), if_neg (by omega), if_neg (by omega), if_neg (by omega),
      if_pos (by omega)]
    simp only [List.cons_append, List.nil_append, List.head?_cons, List.tail_cons,
      Option.some_bind]
    rw [if_pos (by
      simp only [isCont, Bool.and_eq_true, Bool.or_eq_true, decide_eq_true_eq]
      refine ⟨⟨⟨⟨⟨by omega, by omega⟩, ⟨by omega, by omega⟩⟩, ⟨by omega, by omega⟩⟩, ?_⟩, ?_⟩
      · by_cases he : 0xF0 + c / 262144 = 0xF0
        · exact Or.inr (by omega)
        · exact Or.inl he
      · by_cases he : 0xF0 + c / 262144 = 0xF4
        · exact Or.inr (by omega)
        · exact Or.inl he)]
    simp only [Option.some.injEq, Prod.mk.injEq]
    exact ⟨by omega, trivial⟩

theorem utf8DecodeF_congr : ∀ f g : Nat, ∀ d : Bytes, d.length ≤ f → d.length ≤ g →
    utf8DecodeF f d = utf8DecodeF g d
  | f, g, [], _, _ => by cases f <;> cases g <;> rfl
  | 0, _, _ :: _, hf, _ => by simp at hf
  | _ + 1, 0, _ :: _, _, hg => by simp at hg
  | f + 1, g + 1, b :: bs, hf, hg => by
    simp only [utf8DecodeF]
    cases hdm : decodeMulti b bs with
    | none => rfl
    | some pr =>
      obtain ⟨c, rest⟩ := pr
      have hrest := decodeMulti_rest_le b bs c rest hdm
      simp only [List.length_cons] at hf hg
      change (c :: ·) <$> utf8DecodeF f rest = (c :: ·) <$> utf8DecodeF g rest
      rw [utf8DecodeF_congr f g rest (by omega) (by omega)]

theorem utf8Decode_cons (b : Nat) (bs : Bytes) (c : Nat) (rest : Bytes)
    (h : decodeMulti b bs = some (c, rest)) :
    utf8Decode (b :: bs) = (c :: ·) <$> utf8Decode rest := by
  have hrest := decodeMulti_rest_le b bs c rest h
  unfold utf8Decode
  simp only [List.length_cons, utf8DecodeF, h]
  rw [utf8DecodeF_congr bs.length rest.length rest hrest le_rfl]

theorem utf8Decode_utf8Encode : ∀ p : PyStr, ∀ pb : Bytes,
    utf8Encode p = some pb → utf8Decode pb = some p
  | [], pb, h => by
    simp only [utf8Encode] at h
    cases h
    rfl
  | c :: cs, pb, h => by
    simp only [utf8Encode, Option.bind_eq_bind] at h
    cases heb : utf8EncodeCp c with
    | none => rw [heb] at h; simp at h
    | some eb =>
      rw [heb] at h
      cases hbs : utf8Encode cs with
      | none => rw [hbs] at h; simp at h
      | some bs =>
        rw [hbs] at h
        simp only [Option.some_bind, Option.pure_def, Option.some.injEq] at h
        subst h
        obtain ⟨b, t, rfl⟩ := utf8EncodeCp_ne_nil c eb heb
        rw [List.cons_append, utf8Decode_cons b (t ++ bs) c bs
          (decodeMulti_encodeCp c b t bs heb), utf8Decode_utf8Encode cs bs hbs]
        rfl

/-! ## The encrypt/decrypt round trip -/

/-- Round trip of the cipher wrappers: whatever `encrypt_url` returns,
`decrypt_url` takes back to the plaintext, for any block permutation
satisfying the AES contract. -/
theorem decrypt_url_encrypt_url (ctx : Ctx) (hc : GoodCipher ctx)
    (key iv : Bytes) (hkey : key.length = 32) (hiv : iv.length = 16)
    (p : PyStr) (ivOut ct : Bytes)
    (henc : encrypt_url ctx iv key p = .ok (ivOut, ct)) :
    decrypt_url ctx key ivOut ct = .ok p := by
  obtain ⟨hinv, hlen⟩ := hc
  unfold encrypt_url at henc
  rw [if_neg (by omega)] at henc
  cases hpe : utf8Encode p with
  | none => rw [hpe] at henc; cases henc
  | some pb =>
    rw [hpe] at henc
    simp only [Except.ok.injEq, Prod.mk.injEq] at henc
    obtain ⟨rfl, rfl⟩ := henc
    have hctlen : (cbcEncrypt (ctx.aesEnc key) iv (pkcs7Pad pb)).length % 16 = 0 :=
      length_cbcEncrypt_mod (ctx.aesEnc key) (hlen key) iv (pkcs7Pad pb) hiv
        (length_pkcs7Pad_mod pb)
    unfold decrypt_url
    rw [if_neg (by omega), if_neg (by omega), if_neg (by omega)]
    rw [cbcDecrypt_cbcEncrypt (ctx.aesEnc key) (ctx.aesDec key) (hinv key) (hlen key)
      iv (pkcs7Pad pb) hiv (length_pkcs7Pad_mod pb)]
    rw [pkcs7Unpad_pkcs7Pad]
    simp [utf8Decode_utf8Encode p pb hpe]

/-- A concrete instantiation of the abstract external primitives, used only in
witnesses: the block permutation is the identity and the KDFs pad or truncate
their input to 32 bytes. -/
def testCtx : Ctx where
  argon2 := fun p s => (p ++ s ++ List.replicate 32 0).take 32
  scrypt := fun p s _ _ _ _ => (p ++ s ++ List.replicate 32 0).take 32
  aesEnc := fun _ b => b
  aesDec := fun _ b => b
  SALT1 := List.replicate 16 1
  SALT2 := List.replicate 16 2

theorem testCtx_good : GoodCipher testCtx := ⟨fun _ _ => rfl, fun _ _ h => h⟩

/-- C1: for every 32-byte key and every string plaintext (empty, one-character
and non-ASCII strings included), decrypting the `(iv, ciphertext)` pair
returned by `encrypt_url` with `decrypt_url` under the same key returns
exactly the plaintext. -/
theorem C1_roundtrip (ctx : Ctx) (hc : GoodCipher ctx)
    (key iv : Bytes) (hkey : key.length = 32) (hiv : iv.length = 16)
    (p : PyStr) (ivOut ct : Bytes)
    (henc : encrypt_url ctx iv key p = .ok (ivOut, ct)) :
    decrypt_url ctx key ivOut ct = .ok p :=
  decrypt_url_encrypt_url ctx hc key iv hkey hiv p ivOut ct henc

/-- Witness for C1 at a concrete input: the one-character non-ASCII plaintext
"é" under an all-zero key and IV. -/
theorem C1_roundtrip_witness :
    GoodCipher testCtx ∧
    decrypt_url testCtx (List.replicate 32 0) (List.replicate 16 0)
      ([0xC3, 0xA9] ++ List.replicate 14 14) = .ok (strLit "é") :=
  ⟨testCtx_good,
    C1_roundtrip testCtx testCtx_good (List.replicate 32 0) (List.replicate 16 0)
      (by decide) (by decide) (strLit "é") (List.replicate 16 0)
      ([0xC3, 0xA9] ++ List.replicate 14 14) (by rfl)⟩

/-! ## Supporting lemmas: store operations -/

theorem lookupStore_append_left {ρ : Type} (s t : List (PyStr × ρ)) (k : PyStr) (v : ρ)
    (h : lookupStore s k = some v) : lookupStore (s ++ t) k = some v := by
  induction s with
  | nil => simp [lookupStore] at h
  | cons p rest ih =>
    obtain ⟨k', v'⟩ := p
    simp only [lookupStore, List.cons_append] at h ⊢
    by_cases hk : k' = k
    · rwa [if_pos hk] at h ⊢
    · rw [if_neg hk] at h ⊢
      exact ih h

theorem lookupStore_append_right {ρ : Type} (s t : List (PyStr × ρ)) (k : PyStr)
    (h : lookupStore s k = none) : lookupStore (s ++ t) k = lookupStore t k := by
  induction s with
  | nil => simp
  | cons p rest ih =>
    obtain ⟨k', v'⟩ := p
    simp only [lookupStore, List.cons_append] at h ⊢
    by_cases hk : k' = k
    · rw [if_pos hk] at h; cases h
    · rw [if_neg hk] at h ⊢
      exact ih h

theorem lookupStore_updateStore_self {ρ : Type} (s : List (PyStr × ρ)) (k : PyStr) (v : ρ)
    (h : (lookupStore s k).isSome) : lookupStore (updateStore s k v) k = some v := by
  induction s with
  | nil => simp [lookupStore] at h
  | cons p rest ih =>
    obtain ⟨k0, v0⟩ := p
    simp only [updateStore]
    by_cases hk : k0 = k
    · rw [if_pos hk]
      simp [lookupStore]
    · rw [if_neg hk]
      simp only [lookupStore, if_neg hk] at h ⊢
      exact ih h

theorem lookupStore_updateStore_other {ρ : Type} (s : List (PyStr × ρ)) (k k' : PyStr) (v : ρ)
    (h : k' ≠ k) : lookupStore (updateStore s k v) k' = lookupStore s k' := by
  induction s with
  | nil => rfl
  | cons p rest ih =>
    obtain ⟨k0, v0⟩ := p
    simp only [updateStore]
    by_cases hk : k0 = k
    · rw [if_pos hk]
      have hne : ¬ k = k' := fun he => h he.symm
      have hne0 : ¬ k0 = k' := fun he => h (he.symm.trans hk)
      simp only [lookupStore, if_neg hne, if_neg hne0]
      exact ih
    · rw [if_neg hk]
      simp only [lookupStore]
      by_cases hk' : k0 = k'
      · rw [if_pos hk', if_pos hk']
      · rw [if_neg hk', if_neg hk']
        exact ih

theorem updateStore_keys {ρ : Type} (s : List (PyStr × ρ)) (k : PyStr) (v : ρ) :
    (updateStore s k v).map Prod.fst = s.map Prod.fst := by
  induction s with
  | nil => rfl
  | cons p rest ih =>
    obtain ⟨k0, v0⟩ := p
    simp only [updateStore, List.map_cons]
    by_cases hk : k0 = k
    · rw [if_pos hk]
      simp [hk, ih]
    · rw [if_neg hk]
      simp [ih]

/-! ## Supporting lemmas: the allocation loop -/

theorem allocLoop_exhausted (ctx : Ctx) (ids : Nat → PyStr) (store : ServerStore) :
    ∀ (fuel i : Nat),
    (∀ j, j < fuel → ∃ idb, utf8Encode (ids (i + j)) = some idb ∧
      (lookupStore store (hexEncode (derive_key ctx idb ctx.SALT1))).isSome) →
    allocLoop ctx ids store i fuel = .exhausted (i + fuel)
  | 0, i, _ => rfl
  | fuel + 1, i, h => by
    obtain ⟨idb, henc, hfull⟩ := h 0 (by omega)
    have henc' : utf8Encode (ids i) = some idb := henc
    unfold allocLoop
    rw [henc']
    simp only [hfull, if_pos]
    have := allocLoop_exhausted ctx ids store fuel (i + 1)
      (fun j hj => by
        obtain ⟨idb', h1, h2⟩ := h (j + 1) (by omega)
        have he : i + 1 + j = i + (j + 1) := by omega
        rw [he]
        exact ⟨idb', h1, h2⟩)
    rw [this]
    congr 1
    omega

theorem allocLoop_found (ctx : Ctx) (ids : Nat → PyStr) (store : ServerStore) :
    ∀ (k fuel i : Nat) (idbK : Bytes), k < fuel →
    (∀ j, j < k → ∃ idb, utf8Encode (ids (i + j)) = some idb ∧
      (lookupStore store (hexEncode (derive_key ctx idb ctx.SALT1))).isSome) →
    utf8Encode (ids (i + k)) = some idbK →
    lookupStore store (hexEncode (derive_key ctx idbK ctx.SALT1)) = none →
    allocLoop ctx ids store i fuel
      = .found (i + k + 1) (ids (i + k)) (hexEncode (derive_key ctx idbK ctx.SALT1))
  | 0, fuel + 1, i, idbK, _, _, hencK, hfree => by
    have hencK' : utf8Encode (ids i) = some idbK := hencK
    unfold allocLoop
    rw [hencK']
    simp only [hfree, Option.isSome_none, Bool.false_eq_true, if_false]
    rfl
  | k + 1, fuel + 1, i, idbK, hk, hprev, hencK, hfree => by
    obtain ⟨idb, henc, hfull⟩ := hprev 0 (by omega)
    have henc' : utf8Encode (ids i) = some idb := henc
    unfold allocLoop
    rw [henc']
    simp only [hfull, if_pos]
    have := allocLoop_found ctx ids store k fuel (i + 1) idbK (by omega)
      (fun j hj => by
        obtain ⟨idb', h1, h2⟩ := hprev (j + 1) (by omega)
        have he : i + 1 + j = i + (j + 1) := by omega
        rw [he]
        exact ⟨idb', h1, h2⟩)
      (by
        have he : i + 1 + k = i + (k + 1) := by omega
        rw [he]
        exact hencK) hfree
    rw [this]
    congr 2 <;> omega

/-- C3: with an existence check that always reports the lookup key present,
the server-scheme allocation loop stops after exactly its retry budget of 100
attempts and the endpoint reports the allocator-exhausted error (store
unchanged); and when some attempt is the first to find an unused lookup key,
the loop stops at that attempt and that identifier is the one created. -/
theorem C3_allocator_termination (ctx : Ctx) (ids : Nat → PyStr) (ivTape : Bytes) (url : PyStr)
    (storeA : ServerStore)
    (hA : ∀ i, ∃ idb, utf8Encode (ids i) = some idb ∧
      (lookupStore storeA (hexEncode (derive_key ctx idb ctx.SALT1))).isSome)
    (storeB : ServerStore) (k : Nat) (idbK : Bytes) (hk : k < 100)
    (hprevB : ∀ j, j < k → ∃ idb, utf8Encode (ids j) = some idb ∧
      (lookupStore storeB (hexEncode (derive_key ctx idb ctx.SALT1))).isSome)
    (hencK : utf8Encode (ids k) = some idbK)
    (hfreeK : lookupStore storeB (hexEncode (derive_key ctx idbK ctx.SALT1)) = none)
    (hklen : (derive_key ctx idbK ctx.SALT2).length = 32)
    (hurl : (utf8Encode (normalizeUrl url)).isSome) :
    (allocLoop ctx ids storeA 0 100 = .exhausted 100 ∧
     shorten_url_server ctx ids ivTape storeA (some url) = (.exhausted500, storeA)) ∧
    (allocLoop ctx ids storeB 0 100
        = .found (k + 1) (ids k) (hexEncode (derive_key ctx idbK ctx.SALT1)) ∧
     shorten_url_server ctx ids ivTape storeB (some url)
        = (.created201 (ids k),
           storeB ++ [(hexEncode (derive_key ctx idbK ctx.SALT1),
             ⟨ivTape, cbcEncrypt (ctx.aesEnc (derive_key ctx idbK ctx.SALT2)) ivTape
               (pkcs7Pad ((utf8Encode (normalizeUrl url)).getD []))⟩)])) := by
  have hexh : allocLoop ctx ids storeA 0 100 = .exhausted 100 := by
    have := allocLoop_exhausted ctx ids storeA 100 0
      (fun j _ => by
        obtain ⟨idb, h1, h2⟩ := hA j
        have he : 0 + j = j := by omega
        rw [he]
        exact ⟨idb, h1, h2⟩)
    simpa using this
  have hfnd : allocLoop ctx ids storeB 0 100
      = .found (k + 1) (ids k) (hexEncode (derive_key ctx idbK ctx.SALT1)) := by
    have := allocLoop_found ctx ids storeB k 100 0 idbK hk
      (fun j hj => by
        obtain ⟨idb, h1, h2⟩ := hprevB j hj
        have he : 0 + j = j := by omega
        rw [he]
        exact ⟨idb, h1, h2⟩)
      (by rw [Nat.zero_add]; exact hencK) hfreeK
    rwa [Nat.zero_add] at this
  obtain ⟨ub, hub⟩ := Option.isSome_iff_exists.mp hurl
  refine ⟨⟨hexh, ?_⟩, hfnd, ?_⟩
  · unfold shorten_url_server
    rw [hexh]
  · unfold shorten_url_server
    rw [hfnd]
    simp only [hencK]
    unfold encrypt_url
    rw [if_neg (by omega)]
    rw [hub]
    simp only [hub, Option.getD_some]

/-- Constant identifier tape used by witnesses. -/
def wIds : Nat → PyStr := fun _ => strLit "id"

/-- Witness store in which the constant tape's lookup hash is always taken. -/
def wStoreA : ServerStore :=
  [(hexEncode (derive_key testCtx [105, 100] testCtx.SALT1), ⟨[], []⟩)]

/-- Witness for C3: under `wStoreA` every attempt collides and allocation
exhausts after exactly 100 attempts; under the empty store the first attempt
succeeds and that identifier is created. -/
theorem C3_allocator_termination_witness :
    (allocLoop testCtx wIds wStoreA 0 100 = .exhausted 100 ∧
     shorten_url_server testCtx wIds (List.replicate 16 0) wStoreA (some (strLit "x"))
        = (.exhausted500, wStoreA)) ∧
    (allocLoop testCtx wIds [] 0 100
        = .found 1 (strLit "id") (hexEncode (derive_key testCtx [105, 100] testCtx.SALT1)) ∧
     shorten_url_server testCtx wIds (List.replicate 16 0) [] (some (strLit "x"))
        = (.created201 (strLit "id"),
           [] ++ [(hexEncode (derive_key testCtx [105, 100] testCtx.SALT1),
             ⟨List.replicate 16 0,
              cbcEncrypt (testCtx.aesEnc (derive_key testCtx [105, 100] testCtx.SALT2))
                (List.replicate 16 0)
                (pkcs7Pad ((utf8Encode (normalizeUrl (strLit "x"))).getD []))⟩)])) :=
  C3_allocator_termination testCtx wIds (List.replicate 16 0) (strLit "x") wStoreA
    (fun _ => ⟨[105, 100], rfl, rfl⟩) [] 0 [105, 100] (by decide)
    (fun j hj => absurd hj (by omega)) (by decide) (by decide) (by decide) (by decide)

/-- A second witness context: same scrypt as `testCtx` but different Argon2
primitive and different server secrets. -/
def testCtx2 : Ctx :=
  { testCtx with
    argon2 := fun p s => (s ++ p ++ List.replicate 32 1).take 32
    SALT1 := List.replicate 16 9
    SALT2 := List.replicate 16 7 }

/-- C8: the client-scheme lookup key of an identifier is the hex encoding of
the scrypt output over the identifier's UTF-8 bytes with parameters N=2^17,
r=8, p=1, dklen=32 and the fixed public 16-byte constant salt
"tnyr.me_lookup_s"; it uses no server secret (contexts differing in their
Argon2 primitive and server salts give the same key), so two calls on the
same identifier always agree. -/
theorem C8_client_lookup_key (ctx ctx' : Ctx) (hs : ctx.scrypt = ctx'.scrypt)
    (id_str : PyStr) (idb : Bytes) (hid : utf8Encode id_str = some idb) :
    hash_id_for_lookup_client ctx id_str
        = some (hexEncode (ctx.scrypt idb LOOKUP_SALT (2 ^ 17) 8 1 32)) ∧
    hash_id_for_lookup_client ctx' id_str = hash_id_for_lookup_client ctx id_str ∧
    LOOKUP_SALT = strLit "tnyr.me_lookup_s" ∧
    LOOKUP_SALT.length = 16 := by
  refine ⟨?_, ?_, by decide, by decide⟩
  · simp [hash_id_for_lookup_client, hid]
  · simp [hash_id_for_lookup_client, hs]

/-- Witness for C8 at the concrete identifier "abc", comparing two contexts
that share only the scrypt primitive. -/
theorem C8_client_lookup_key_witness :
    hash_id_for_lookup_client testCtx (strLit "abc")
        = some (hexEncode (testCtx.scrypt [97, 98, 99] LOOKUP_SALT (2 ^ 17) 8 1 32)) ∧
    hash_id_for_lookup_client testCtx2 (strLit "abc")
        = hash_id_for_lookup_client testCtx (strLit "abc") ∧
    LOOKUP_SALT = strLit "tnyr.me_lookup_s" ∧
    LOOKUP_SALT.length = 16 :=
  C8_client_lookup_key testCtx testCtx2 rfl (strLit "abc") [97, 98, 99] (by decide)

/-- Inversion of a successful allocation: the returned lookup hash was absent
from the store and is the SALT1-derived hash of the returned identifier. -/
theorem allocLoop_found_inv (ctx : Ctx) (ids : Nat → PyStr) (store : ServerStore) :
    ∀ (fuel i n : Nat) (id lh : PyStr),
    allocLoop ctx ids store i fuel = .found n id lh →
    lookupStore store lh = none ∧ ∃ idb, utf8Encode id = some idb ∧
      lh = hexEncode (derive_key ctx idb ctx.SALT1)
  | 0, i, n, id, lh, h => by
    unfold allocLoop at h
    cases h
  | fuel + 1, i, n, id, lh, h => by
    unfold allocLoop at h
    cases henc : utf8Encode (ids i) with
    | none =>
      simp only [henc] at h
      cases h
    | some idb =>
      simp only [henc] at h
      by_cases hfull : (lookupStore store (hexEncode (derive_key ctx idb ctx.SALT1))).isSome
      · rw [if_pos hfull] at h
        exact allocLoop_found_inv ctx ids store fuel (i + 1) n id lh h
      · rw [if_neg hfull] at h
        injection h with hn hid hlh
        subst hid
        subst hlh
        exact ⟨Option.not_isSome_iff_eq_none.mp hfull, idb, henc, rfl⟩

/-- The URL normalization never produces the abuse marker, because the marker
does not start with any of the three accepted prefixes and prepending
`http://` cannot produce it either. -/
theorem normalizeUrl_ne_marker (url : PyStr) : normalizeUrl url ≠ ABUSE_WARNING_MARKER := by
  unfold normalizeUrl
  split_ifs with h
  · intro he
    subst he
    exact absurd h (by decide)
  · intro he
    rw [(by decide : strLit "http://" = [104, 116, 116, 112, 58, 47, 47]),
      (by decide : ABUSE_WARNING_MARKER
        = [95, 95, 65, 66, 85, 83, 69, 95, 87, 65, 82, 78, 73, 78, 71, 95, 95])] at he
    simp at he

/-- C10: when a server-scheme resolve finds a row and decryption succeeds, the
abuse-warning page (status 200) is returned if and only if the decrypted
plaintext is the fixed marker string; any other plaintext becomes a 302
redirect to it — and no resolve, on any store and identifier, ever returns a
302 redirect whose target is the marker string. -/
theorem C10_abuse_marker (ctx : Ctx) (store : ServerStore) (id : PyStr) (idb : Bytes)
    (hid : utf8Encode id = some idb) (row : ServerRec)
    (hrow : lookupStore store (hexEncode (derive_key ctx idb ctx.SALT1)) = some row)
    (url : PyStr)
    (hdec : decrypt_url ctx (derive_key ctx idb ctx.SALT2) row.iv row.encrypted_url = .ok url) :
    (redirect_url ctx store id = .abuseWarning200 ↔ url = ABUSE_WARNING_MARKER) ∧
    (url ≠ ABUSE_WARNING_MARKER → redirect_url ctx store id = .redirect302 url) ∧
    (∀ store2 id2, redirect_url ctx store2 id2 ≠ .redirect302 ABUSE_WARNING_MARKER) := by
  have hred : redirect_url ctx store id
      = if url = ABUSE_WARNING_MARKER then .abuseWarning200 else .redirect302 url := by
    unfold redirect_url
    simp only [hid, hrow, hdec]
  refine ⟨?_, ?_, ?_⟩
  · rw [hred]
    constructor
    · intro h
      by_cases hm : url = ABUSE_WARNING_MARKER
      · exact hm
      · rw [if_neg hm] at h
        cases h
    · intro hm
      rw [if_pos hm]
  · intro hm
    rw [hred, if_neg hm]
  · intro store2 id2
    unfold redirect_url
    cases h2 : utf8Encode id2 with
    | none => simp
    | some idb2 =>
      simp only
      cases hrow2 : lookupStore store2 (hexEncode (derive_key ctx idb2 ctx.SALT1)) with
      | none => simp
      | some row2 =>
        simp only
        cases hdec2 : decrypt_url ctx (derive_key ctx idb2 ctx.SALT2) row2.iv
            row2.encrypted_url with
        | error e => simp
        | ok u =>
          simp only
          by_cases hm : u = ABUSE_WARNING_MARKER
          · rw [if_pos hm]
            simp
          · rw [if_neg hm]
            intro hcon
            injection hcon with hu
            exact hm hu

/-- Witness row for C10: the abuse marker encrypted under the test context. -/
def wRowC10 : ServerRec :=
  ⟨List.replicate 16 0,
   cbcEncrypt (testCtx.aesEnc (derive_key testCtx [105, 100] testCtx.SALT2))
     (List.replicate 16 0)
     (pkcs7Pad [95, 95, 65, 66, 85, 83, 69, 95, 87, 65, 82, 78, 73, 78, 71, 95, 95])⟩

/-- Witness store for C10 mapping the identifier "id" to the marker row. -/
def wStoreC10 : ServerStore :=
  [(hexEncode (derive_key testCtx [105, 100] testCtx.SALT1), wRowC10)]

/-- Witness for C10: resolving an identifier whose stored plaintext is the
marker yields the abuse-warning page. -/
theorem C10_abuse_marker_witness :
    redirect_url testCtx wStoreC10 (strLit "id") = .abuseWarning200 :=
  (C10_abuse_marker testCtx wStoreC10 (strLit "id") [105, 100] (by decide) wRowC10 rfl
    ABUSE_WARNING_MARKER (by rfl)).1.mpr rfl

/-- C9: a server-scheme create silently prepends `http://` to a URL that does
not start with `https://`, `http://` or `magnet:` (and stores prefixed URLs
verbatim), and a later resolve of the returned identifier redirects (302) to
that normalized URL, not necessarily the string the caller submitted. -/
theorem C9_url_prefixing (ctx : Ctx) (hc : GoodCipher ctx)
    (hklen : ∀ p s, (ctx.argon2 p s).length = 32)
    (ids : Nat → PyStr) (ivTape : Bytes) (hiv : ivTape.length = 16)
    (store : ServerStore) (url : PyStr) (id : PyStr) (store' : ServerStore)
    (hshort : shorten_url_server ctx ids ivTape store (some url) = (.created201 id, store')) :
    (¬ (startsWith (strLit "https://") url = true ∨ startsWith (strLit "http://") url = true
        ∨ startsWith (strLit "magnet:") url = true) →
      normalizeUrl url = strLit "http://" ++ url) ∧
    ((startsWith (strLit "https://") url = true ∨ startsWith (strLit "http://") url = true
        ∨ startsWith (strLit "magnet:") url = true) →
      normalizeUrl url = url) ∧
    redirect_url ctx store' id = .redirect302 (normalizeUrl url) := by
  refine ⟨?_, ?_, ?_⟩
  · intro h
    unfold normalizeUrl
    rw [if_neg (by
      intro hor
      rcases Bool.or_eq_true_iff.mp hor with hor' | h3
      · rcases Bool.or_eq_true_iff.mp hor' with h1 | h2
        · exact h (Or.inl h1)
        · exact h (Or.inr (Or.inl h2))
      · exact h (Or.inr (Or.inr h3)))]
  · intro h
    unfold normalizeUrl
    rw [if_pos (by
      rcases h with h1 | h2 | h3
      · simp [h1]
      · simp [h2]
      · simp [h3])]
  · unfold shorten_url_server at hshort
    cases halloc : allocLoop ctx ids store 0 100 with
    | exhausted m => rw [halloc] at hshort; cases hshort
    | encodeError => rw [halloc] at hshort; cases hshort
    | found n idf lh =>
      rw [halloc] at hshort
      cases hidenc : utf8Encode idf with
      | none =>
        simp only [hidenc] at hshort
        simp at hshort
      | some idb =>
        simp only [hidenc] at hshort
        cases hectry : encrypt_url ctx ivTape (derive_key ctx idb ctx.SALT2)
            (normalizeUrl url) with
        | error e =>
          simp only [hectry] at hshort
          simp at hshort
        | ok pr =>
          obtain ⟨ivOut, ct⟩ := pr
          simp only [hectry, Prod.mk.injEq, SResp.created201.injEq] at hshort
          obtain ⟨rfl, rfl⟩ := hshort
          obtain ⟨hfree, idb', hidenc', hlh⟩ := allocLoop_found_inv ctx ids store
            100 0 n idf lh halloc
          rw [hidenc] at hidenc'
          injection hidenc' with hidb
          subst hidb
          have hivOut : ivOut = ivTape := by
            unfold encrypt_url at hectry
            rw [if_neg (by simp [derive_key, hklen])] at hectry
            cases hue : utf8Encode (normalizeUrl url) with
            | none => rw [hue] at hectry; cases hectry
            | some ub =>
              rw [hue] at hectry
              simp only [Except.ok.injEq, Prod.mk.injEq] at hectry
              exact hectry.1.symm
          rw [hivOut] at hectry
          have hdec := decrypt_url_encrypt_url ctx hc (derive_key ctx idb ctx.SALT2) ivTape
            (by simp [derive_key, hklen]) hiv (normalizeUrl url) ivTape ct hectry
          unfold redirect_url
          simp only [hidenc]
          rw [← hlh]
          rw [lookupStore_append_right store _ lh hfree]
          simp [lookupStore, hivOut, hdec, normalizeUrl_ne_marker url]

/-- Witness store for C9: the record created for identifier "id" and submitted
URL "x" (stored as "http://x"). -/
def wStoreC9 : ServerStore :=
  [(hexEncode (derive_key testCtx [105, 100] testCtx.SALT1),
    ⟨List.replicate 16 0,
     cbcEncrypt (testCtx.aesEnc (derive_key testCtx [105, 100] testCtx.SALT2))
       (List.replicate 16 0) (pkcs7Pad [104, 116, 116, 112, 58, 47, 47, 120])⟩)]

/-- Witness for C9 at the concrete prefixless URL "x". -/
theorem C9_url_prefixing_witness :
    (¬ (startsWith (strLit "https://") (strLit "x") = true
        ∨ startsWith (strLit "http://") (strLit "x") = true
        ∨ startsWith (strLit "magnet:") (strLit "x") = true) →
      normalizeUrl (strLit "x") = strLit "http://" ++ strLit "x") ∧
    ((startsWith (strLit "https://") (strLit "x") = true
        ∨ startsWith (strLit "http://") (strLit "x") = true
        ∨ startsWith (strLit "magnet:") (strLit "x") = true) →
      normalizeUrl (strLit "x") = strLit "x") ∧
    redirect_url testCtx wStoreC9 (strLit "id") = .redirect302 (normalizeUrl (strLit "x")) :=
  C9_url_prefixing testCtx testCtx_good
    (fun p s => by simp [testCtx]; omega) wIds
    (List.replicate 16 0) (by decide) [] (strLit "x") (strLit "id") wStoreC9 (by rfl)

/-- C2: for an identifier absent from the server-scheme table but whose
client-scheme lookup hash is present, the takedown probes the server table
first (and fails), finds the client row, derives the encryption key from the
identifier and the freshly drawn 16-byte random salt (not the stored one),
encrypts the marker, overwrites salt, IV and ciphertext in place, and reports
success; if neither table has a match it reports not-found. -/
theorem C2_reconciler_client (ctx : Ctx) (cfgToken : PyStr) (hcfg : cfgToken ≠ [])
    (freshSalt ivS ivC : Bytes) (hsalt : freshSalt.length = 16)
    (sStore : ServerStore) (cStore : ClientStore)
    (link_id : PyStr) (idb : Bytes) (hid : utf8Encode link_id = some idb)
    (hserver : lookupStore sStore (hexEncode (derive_key ctx idb ctx.SALT1)) = none)
    (hklen : (ctx.scrypt idb freshSalt (2 ^ 17) 8 1 32).length = 32) :
    (∀ oldRec, lookupStore cStore (hexEncode (ctx.scrypt idb LOOKUP_SALT (2 ^ 17) 8 1 32))
        = some oldRec →
      delete_url ctx cfgToken freshSalt ivS ivC sStore cStore
          (some (some link_id, some cfgToken))
        = (.success200, sStore,
           updateStore cStore (hexEncode (ctx.scrypt idb LOOKUP_SALT (2 ^ 17) 8 1 32))
             ⟨freshSalt, ivC,
              cbcEncrypt (ctx.aesEnc (ctx.scrypt idb freshSalt (2 ^ 17) 8 1 32)) ivC
                (pkcs7Pad [95, 95, 65, 66, 85, 83, 69, 95, 87, 65, 82, 78, 73, 78, 71,
                  95, 95])⟩)) ∧
    (lookupStore cStore (hexEncode (ctx.scrypt idb LOOKUP_SALT (2 ^ 17) 8 1 32)) = none →
      delete_url ctx cfgToken freshSalt ivS ivC sStore cStore
          (some (some link_id, some cfgToken))
        = (.notFound404, sStore, cStore)) ∧
    hash_id_for_lookup_client ctx link_id
      = some (hexEncode (ctx.scrypt idb LOOKUP_SALT (2 ^ 17) 8 1 32)) ∧
    freshSalt.length = 16 := by
  have hmarker : utf8Encode ABUSE_WARNING_MARKER
      = some [95, 95, 65, 66, 85, 83, 69, 95, 87, 65, 82, 78, 73, 78, 71, 95, 95] := by
    decide
  refine ⟨?_, ?_, by simp [hash_id_for_lookup_client, hid], hsalt⟩
  · intro oldRec hclient
    unfold delete_url
    rw [if_neg hcfg]
    simp only [hid, hserver, hclient]
    unfold encrypt_url_client
    simp [hmarker]
    rw [if_pos (show (ctx.scrypt idb freshSalt 131072 8 1 32).length = 32 from hklen)]
  · intro hclient
    have hclient' : lookupStore cStore (hexEncode (ctx.scrypt idb LOOKUP_SALT 131072 8 1 32))
        = none := hclient
    unfold delete_url
    rw [if_neg hcfg]
    simp [hid, hserver, hclient']

/-- Witness client store for C2: one row under the client lookup hash of
identifier "id" with an old salt of nines. -/
def wCStoreC2 : ClientStore :=
  [(hexEncode (testCtx.scrypt [105, 100] LOOKUP_SALT (2 ^ 17) 8 1 32),
    ⟨List.replicate 16 9, List.replicate 16 0, []⟩)]

/-- Witness for C2: the takedown of "id" (present only in the client table)
overwrites the row with the fresh salt of fives and the re-encrypted marker,
and leaves the empty server table alone. -/
theorem C2_reconciler_client_witness :
    delete_url testCtx [116] (List.replicate 16 5) (List.replicate 16 0) (List.replicate 16 0)
        [] wCStoreC2 (some (some (strLit "id"), some [116]))
      = (.success200, [],
         updateStore wCStoreC2
           (hexEncode (testCtx.scrypt [105, 100] LOOKUP_SALT (2 ^ 17) 8 1 32))
           ⟨List.replicate 16 5, List.replicate 16 0,
            cbcEncrypt
              (testCtx.aesEnc (testCtx.scrypt [105, 100] (List.replicate 16 5) (2 ^ 17) 8 1 32))
              (List.replicate 16 0)
              (pkcs7Pad [95, 95, 65, 66, 85, 83, 69, 95, 87, 65, 82, 78, 73, 78, 71, 95, 95])⟩) :=
  (C2_reconciler_client testCtx [116] (by decide) (List.replicate 16 5) (List.replicate 16 0)
    (List.replicate 16 0) (by decide) [] wCStoreC2 (strLit "id") [105, 100] (by decide) rfl
    (by decide)).1 ⟨List.replicate 16 9, List.replicate 16 0, []⟩ rfl

/-- C6: whichever table the takedown finds the record in, it only replaces
that record's encryption material (server scheme: IV and ciphertext; client
scheme: salt, IV and ciphertext) with a fresh encryption of the fixed marker,
keeps the record's lookup hash (the row set of hashes is unchanged — nothing
is deleted) and leaves every other record in both tables untouched. -/
theorem C6_takedown_frame (ctx : Ctx) (cfgToken : PyStr) (hcfg : cfgToken ≠ [])
    (freshSalt ivS ivC : Bytes) (sStore : ServerStore) (cStore : ClientStore)
    (link_id : PyStr) (idb : Bytes) (hid : utf8Encode link_id = some idb)
    (hklenS : (derive_key ctx idb ctx.SALT2).length = 32)
    (hklenC : (ctx.scrypt idb freshSalt (2 ^ 17) 8 1 32).length = 32)
    (r : DelResp) (s' : ServerStore) (c' : ClientStore)
    (hrun : delete_url ctx cfgToken freshSalt ivS ivC sStore cStore
        (some (some link_id, some cfgToken)) = (r, s', c')) :
    ((lookupStore sStore (hexEncode (derive_key ctx idb ctx.SALT1))).isSome →
      r = .success200 ∧ c' = cStore ∧
      s'.map Prod.fst = sStore.map Prod.fst ∧
      (∀ k, k ≠ hexEncode (derive_key ctx idb ctx.SALT1) →
        lookupStore s' k = lookupStore sStore k) ∧
      lookupStore s' (hexEncode (derive_key ctx idb ctx.SALT1))
        = some ⟨ivS, cbcEncrypt (ctx.aesEnc (derive_key ctx idb ctx.SALT2)) ivS
            (pkcs7Pad [95, 95, 65, 66, 85, 83, 69, 95, 87, 65, 82, 78, 73, 78, 71, 95, 95])⟩) ∧
    (lookupStore sStore (hexEncode (derive_key ctx idb ctx.SALT1)) = none →
      (lookupStore cStore (hexEncode (ctx.scrypt idb LOOKUP_SALT (2 ^ 17) 8 1 32))).isSome →
      r = .success200 ∧ s' = sStore ∧
      c'.map Prod.fst = cStore.map Prod.fst ∧
      (∀ k, k ≠ hexEncode (ctx.scrypt idb LOOKUP_SALT (2 ^ 17) 8 1 32) →
        lookupStore c' k = lookupStore cStore k) ∧
      lookupStore c' (hexEncode (ctx.scrypt idb LOOKUP_SALT (2 ^ 17) 8 1 32))
        = some ⟨freshSalt, ivC,
            cbcEncrypt (ctx.aesEnc (ctx.scrypt idb freshSalt (2 ^ 17) 8 1 32)) ivC
              (pkcs7Pad [95, 95, 65, 66, 85, 83, 69, 95, 87, 65, 82, 78, 73, 78, 71,
                95, 95])⟩) := by
  have hmarker : utf8Encode ABUSE_WARNING_MARKER
      = some [95, 95, 65, 66, 85, 83, 69, 95, 87, 65, 82, 78, 73, 78, 71, 95, 95] := by
    decide
  constructor
  · intro hS
    unfold delete_url at hrun
    rw [if_neg hcfg] at hrun
    simp only [hid] at hrun
    rw [if_neg (not_not_intro (rfl : cfgToken = cfgToken)), if_pos hS] at hrun
    unfold encrypt_url at hrun
    rw [if_neg (show ¬ (derive_key ctx idb ctx.SALT2).length ≠ 32 from by omega)] at hrun
    rw [hmarker] at hrun
    simp only [Prod.mk.injEq] at hrun
    obtain ⟨rfl, rfl, rfl⟩ := hrun
    refine ⟨rfl, rfl, updateStore_keys _ _ _, ?_, ?_⟩
    · intro k hk
      exact lookupStore_updateStore_other _ _ _ _ hk
    · exact lookupStore_updateStore_self _ _ _ hS
  · intro hS hC
    unfold delete_url at hrun
    rw [if_neg hcfg] at hrun
    simp only [hid] at hrun
    rw [if_neg (not_not_intro (rfl : cfgToken = cfgToken)), hS] at hrun
    rw [if_neg (show ¬ (none : Option ServerRec).isSome = true from by simp),
      if_pos hC] at hrun
    unfold encrypt_url_client at hrun
    rw [if_neg (show ¬ (ctx.scrypt idb freshSalt (2 ^ 17) 8 1 32).length ≠ 32 from by omega)]
      at hrun
    rw [hmarker] at hrun
    simp only [Prod.mk.injEq] at hrun
    obtain ⟨rfl, rfl, rfl⟩ := hrun
    refine ⟨rfl, rfl, updateStore_keys _ _ _, ?_, ?_⟩
    · intro k hk
      exact lookupStore_updateStore_other _ _ _ _ hk
    · exact lookupStore_updateStore_self _ _ _ hC

/-- Witness server store for C6: one row under the server lookup hash of "id". -/
def wStoreC6 : ServerStore :=
  [(hexEncode (derive_key testCtx [105, 100] testCtx.SALT1), ⟨[], []⟩)]

/-- The material C6's takedown writes in the witness scenario. -/
def wRecC6 : ServerRec :=
  ⟨List.replicate 16 0,
   cbcEncrypt (testCtx.aesEnc (derive_key testCtx [105, 100] testCtx.SALT2))
     (List.replicate 16 0)
     (pkcs7Pad [95, 95, 65, 66, 85, 83, 69, 95, 87, 65, 82, 78, 73, 78, 71, 95, 95])⟩

/-- Witness for C6: after the takedown of "id" in the server table, the row is
still there under its unchanged lookup hash, holding the fresh marker
material. -/
theorem C6_takedown_frame_witness :
    lookupStore
        (updateStore wStoreC6 (hexEncode (derive_key testCtx [105, 100] testCtx.SALT1)) wRecC6)
        (hexEncode (derive_key testCtx [105, 100] testCtx.SALT1))
      = some wRecC6 :=
  ((C6_takedown_frame testCtx [116] (by decide) (List.replicate 16 5) (List.replicate 16 0)
    (List.replicate 16 0) wStoreC6 [] (strLit "id") [105, 100] (by decide) (by decide)
    (by decide) .success200
    (updateStore wStoreC6 (hexEncode (derive_key testCtx [105, 100] testCtx.SALT1)) wRecC6)
    [] (by rfl)).1 rfl).2.2.2.2

/-- C7: creates never overwrite an existing record.  Every record present
before a server-scheme create is unchanged after it (the allocator only ever
inserts under a hash it verified absent), and every record present before a
client-scheme create is unchanged after it; a client create whose lookup hash
already has a row answers 409 and leaves the table exactly as it was. -/
theorem C7_no_overwrite (ctx : Ctx) (ids : Nat → PyStr) (ivTape : Bytes)
    (sStore : ServerStore) (sData : Option PyStr)
    (cStore : ClientStore) (cData : Option ClientReq) :
    (∀ k v, lookupStore sStore k = some v →
      lookupStore (shorten_url_server ctx ids ivTape sStore sData).2 k = some v) ∧
    (∀ n id lh, allocLoop ctx ids sStore 0 100 = .found n id lh →
      lookupStore sStore lh = none) ∧
    (∀ k v, lookupStore cStore k = some v →
      lookupStore (shorten_url_client cStore cData).2 k = some v) ∧
    (∀ lh sh ih uh, cData = some ⟨some lh, some sh, some ih, some uh⟩ →
      (fromhex sh).isSome → (fromhex ih).isSome → (fromhex uh).isSome →
      (lookupStore cStore lh).isSome →
      shorten_url_client cStore cData = (.conflict409, cStore)) := by
  refine ⟨?_, ?_, ?_, ?_⟩
  · intro k v hkv
    unfold shorten_url_server
    cases sData with
    | none => exact hkv
    | some url =>
      cases halloc : allocLoop ctx ids sStore 0 100 with
      | exhausted m => exact hkv
      | encodeError => exact hkv
      | found n idf lh =>
        cases hidenc : utf8Encode idf with
        | none =>
          simp only [hidenc]
          exact hkv
        | some idb =>
          simp only [hidenc]
          cases hectry : encrypt_url ctx ivTape (derive_key ctx idb ctx.SALT2)
              (normalizeUrl url) with
          | error e =>
            simp only [hectry]
            exact hkv
          | ok pr =>
            obtain ⟨iv, ct⟩ := pr
            simp only [hectry]
            exact lookupStore_append_left sStore _ k v hkv
  · intro n id lh h
    exact (allocLoop_found_inv ctx ids sStore 100 0 n id lh h).1
  · intro k v hkv
    unfold shorten_url_client
    cases cData with
    | none => exact hkv
    | some req =>
      obtain ⟨f1, f2, f3, f4⟩ := req
      cases f1 with
      | none => exact hkv
      | some lh =>
        cases f2 with
        | none => exact hkv
        | some sh =>
          cases f3 with
          | none => exact hkv
          | some ih =>
            cases f4 with
            | none => exact hkv
            | some uh =>
              cases hs : fromhex sh with
              | none =>
                simp only [hs]
                exact hkv
              | some es =>
                cases hi : fromhex ih with
                | none =>
                  simp only [hs, hi]
                  exact hkv
                | some ivb =>
                  cases hu : fromhex uh with
                  | none =>
                    simp only [hs, hi, hu]
                    exact hkv
                  | some ub =>
                    simp only [hs, hi, hu]
                    by_cases hex : (lookupStore cStore lh).isSome
                    · rw [if_pos hex]
                      exact hkv
                    · rw [if_neg hex]
                      exact lookupStore_append_left cStore _ k v hkv
  · intro lh sh ih uh hdata hs hi hu hex
    subst hdata
    obtain ⟨es, hs'⟩ := Option.isSome_iff_exists.mp hs
    obtain ⟨ivb, hi'⟩ := Option.isSome_iff_exists.mp hi
    obtain ⟨ub, hu'⟩ := Option.isSome_iff_exists.mp hu
    unfold shorten_url_client
    simp only [hs', hi', hu']
    rw [if_pos hex]

/-- Witness for C7: a client-scheme create whose lookup hash already has a row
answers 409 and leaves the table unchanged. -/
theorem C7_no_overwrite_witness :
    shorten_url_client wCStoreC2
        (some ⟨some (hexEncode (testCtx.scrypt [105, 100] LOOKUP_SALT (2 ^ 17) 8 1 32)),
          some (strLit "aa"), some (strLit "bb"), some (strLit "cc")⟩)
      = (.conflict409, wCStoreC2) :=
  (C7_no_overwrite testCtx wIds [] [] none wCStoreC2
      (some ⟨some (hexEncode (testCtx.scrypt [105, 100] LOOKUP_SALT (2 ^ 17) 8 1 32)),
        some (strLit "aa"), some (strLit "bb"), some (strLit "cc")⟩)).2.2.2
    (hexEncode (testCtx.scrypt [105, 100] LOOKUP_SALT (2 ^ 17) 8 1 32))
    (strLit "aa") (strLit "bb") (strLit "cc") rfl (by decide) (by decide) (by decide) rfl

/-- Counterexample to C5 as stated: the lookup-hash field is not hex-validated.
The string "zz" is not valid hex, yet a create request carrying it as
LOOKUP_HASH (with valid hex in the other three fields) is accepted and the row
is inserted under the literal string "zz" instead of being rejected. -/
theorem C5_counterexample :
    fromhex (strLit "zz") = none ∧
    shorten_url_client []
        (some ⟨some (strLit "zz"), some (strLit "aa"), some (strLit "bb"), some (strLit "cc")⟩)
      = (.created201, [(strLit "zz", ⟨[0xAA], [0xBB], [0xCC]⟩)]) :=
  ⟨by decide, by rfl⟩

/-- C5 (amended): a client-scheme create rejects with the missing-fields error
when the body or any of the four fields is absent, rejects with the
invalid-hex error when the salt, IV or encrypted-URL field is not valid hex
(the lookup hash is used as the string it arrives as, without hex
validation), rejects with the distinct already-exists error when the lookup
hash already has a row, and otherwise inserts the decoded record and reports
success. -/
theorem C5_client_create_validation (cStore : ClientStore) :
    (shorten_url_client cStore none = (.missing400, cStore)) ∧
    (∀ f1 f2 f3 f4 : Option PyStr, (f1 = none ∨ f2 = none ∨ f3 = none ∨ f4 = none) →
      shorten_url_client cStore (some ⟨f1, f2, f3, f4⟩) = (.missing400, cStore)) ∧
    (∀ lh sh ih uh : PyStr, (fromhex sh = none ∨ fromhex ih = none ∨ fromhex uh = none) →
      shorten_url_client cStore (some ⟨some lh, some sh, some ih, some uh⟩)
        = (.invalidHex400, cStore)) ∧
    (∀ lh sh ih uh : PyStr, ∀ es ivb ub : Bytes,
      fromhex sh = some es → fromhex ih = some ivb → fromhex uh = some ub →
      (lookupStore cStore lh).isSome →
      shorten_url_client cStore (some ⟨some lh, some sh, some ih, some uh⟩)
        = (.conflict409, cStore)) ∧
    (∀ lh sh ih uh : PyStr, ∀ es ivb ub : Bytes,
      fromhex sh = some es → fromhex ih = some ivb → fromhex uh = some ub →
      lookupStore cStore lh = none →
      shorten_url_client cStore (some ⟨some lh, some sh, some ih, some uh⟩)
        = (.created201, cStore ++ [(lh, ⟨es, ivb, ub⟩)])) := by
  refine ⟨rfl, ?_, ?_, ?_, ?_⟩
  · intro f1 f2 f3 f4 h
    cases f1 <;> cases f2 <;> cases f3 <;> cases f4 <;>
      first
        | rfl
        | simp at h
  · intro lh sh ih uh h
    unfold shorten_url_client
    cases hs : fromhex sh <;> cases hi : fromhex ih <;> cases hu : fromhex uh <;>
      simp only [hs, hi, hu] <;>
      first
        | rfl
        | simp [hs, hi, hu] at h
  · intro lh sh ih uh es ivb ub hs hi hu hex
    unfold shorten_url_client
    simp only [hs, hi, hu]
    rw [if_pos hex]
  · intro lh sh ih uh es ivb ub hs hi hu hfree
    unfold shorten_url_client
    simp only [hs, hi, hu, hfree]
    rw [if_neg (by simp [hfree])]

/-- Witness for the amended C5: a fresh create with valid hex fields inserts
the decoded bytes and reports success. -/
theorem C5_client_create_validation_witness :
    shorten_url_client []
        (some ⟨some (strLit "ab"), some (strLit "aa"), some (strLit "bb"), some (strLit "cc")⟩)
      = (.created201, [] ++ [(strLit "ab", ⟨[0xAA], [0xBB], [0xCC]⟩)]) :=
  (C5_client_create_validation []).2.2.2.2 (strLit "ab") (strLit "aa") (strLit "bb")
    (strLit "cc") [0xAA] [0xBB] [0xCC] (by decide) (by decide) (by decide) rfl

/-- The two-block ciphertext used in the C4 counterexample: seventeen times
letter a, padded and CBC-encrypted under an all-zero key and IV. -/
def wCtC4 : Bytes :=
  cbcEncrypt (testCtx.aesEnc (List.replicate 32 0)) (List.replicate 16 0)
    (pkcs7Pad (List.replicate 17 97))

/-- Counterexample to C4 as stated: a substituted IV is not signaled as a
decryption failure.  The same two-block ciphertext decrypts to the original
plaintext under the correct IV, and under an IV whose first byte is flipped
it still decrypts successfully — silently returning a wrong plaintext whose
first byte changed, instead of the decryption-failed condition.  (This is a
CBC mode-level fact: the IV only enters the first plaintext block, so the
PKCS#7 padding at the end stays valid.) -/
theorem C4_counterexample :
    decrypt_url testCtx (List.replicate 32 0) (List.replicate 16 0) wCtC4
      = .ok (List.replicate 17 97) ∧
    decrypt_url testCtx (List.replicate 32 0) (1 :: List.replicate 15 0) wCtC4
      = .ok (96 :: List.replicate 16 97) ∧
    (96 :: List.replicate 16 97 : PyStr) ≠ List.replicate 17 97 :=
  ⟨by rfl, by rfl, by decide⟩

/-- C4 (amended): every decryption error of `decrypt_url` — whatever its
sub-cause — is reported by the resolve path as the one undifferentiated
"Decryption failed" condition; a key whose length is not exactly 32 bytes is
signaled by `decrypt_url` as a distinct precondition-violation error, which a
32-byte key can never produce.  (However failure is not guaranteed for every
tampering: see the counterexample — a substituted IV on a multi-block
ciphertext can silently yield a wrong plaintext.) -/
theorem C4_decrypt_error_handling (ctx : Ctx) (store : ServerStore) (id : PyStr) (idb : Bytes)
    (hid : utf8Encode id = some idb) (row : ServerRec)
    (hrow : lookupStore store (hexEncode (derive_key ctx idb ctx.SALT1)) = some row) :
    (∀ e, decrypt_url ctx (derive_key ctx idb ctx.SALT2) row.iv row.encrypted_url = .error e →
      redirect_url ctx store id = .decryptionFailed500) ∧
    (∀ key iv ct : Bytes, key.length ≠ 32 →
      decrypt_url ctx key iv ct = .error (.invalidKeyLength key.length)) ∧
    (∀ key iv ct : Bytes, ∀ e : DecryptErr, key.length = 32 →
      decrypt_url ctx key iv ct = .error e →
      e ≠ .invalidKeyLength key.length ∧
      (e = .invalidIVSize ∨ e = .notMultipleOfBlock ∨ e = .invalidPadding ∨
        e = .unicodeDecodeError)) := by
  refine ⟨?_, ?_, ?_⟩
  · intro e he
    unfold redirect_url
    simp only [hid, hrow, he]
  · intro key iv ct hne
    unfold decrypt_url
    rw [if_pos hne]
  · intro key iv ct e h32 h
    unfold decrypt_url at h
    rw [if_neg (show ¬ key.length ≠ 32 from by omega)] at h
    split_ifs at h with hiv hct
    · injection h with he
      subst he
      refine ⟨by simp [h32], Or.inl rfl⟩
    · injection h with he
      subst he
      refine ⟨by simp [h32], Or.inr (Or.inl rfl)⟩
    · cases hup : pkcs7Unpad (cbcDecrypt (ctx.aesDec key) iv ct) with
      | none =>
        simp only [hup] at h
        injection h with he
        subst he
        refine ⟨by simp [h32], Or.inr (Or.inr (Or.inl rfl))⟩
      | some pt =>
        simp only [hup] at h
        cases hdec : utf8Decode pt with
        | none =>
          simp only [hdec] at h
          injection h with he
          subst he
          refine ⟨by simp [h32], Or.inr (Or.inr (Or.inr rfl))⟩
        | some s =>
          simp only [hdec] at h
          cases h

/-- Witness store for C4 with a row whose IV is empty, so decryption fails. -/
def wStoreC4 : ServerStore :=
  [(hexEncode (derive_key testCtx [105, 100] testCtx.SALT1), ⟨[], []⟩)]

/-- Witness for the amended C4: the resolve of a row with broken material
answers with the single decryption-failed condition, and a 0-byte key gets
the distinct key-length error. -/
theorem C4_decrypt_error_handling_witness :
    redirect_url testCtx wStoreC4 (strLit "id") = .decryptionFailed500 ∧
    decrypt_url testCtx [] [] [] = .error (.invalidKeyLength 0) :=
  ⟨(C4_decrypt_error_handling testCtx wStoreC4 (strLit "id") [105, 100] (by decide)
      ⟨[], []⟩ rfl).1 .invalidIVSize (by rfl),
   (C4_decrypt_error_handling testCtx wStoreC4 (strLit "id") [105, 100] (by decide)
      ⟨[], []⟩ rfl).2.1 [] [] [] (by decide)⟩
